import Mathlib

/-!
Verification of the LogCast server (`server.py`): a TLS log-alert
broadcaster.  We shallowly embed the registry operations, the fan-out /
prune routine shared by the keep-alive and alert paths, the inode-based
log tailer, the per-connection receiver, the accept loop and the
shutdown path, and prove the specified properties about them.
-/

namespace LogCast

/-! ## Python string primitives used by the monitor -/

/-- Python `str` whitespace test restricted to the ASCII characters
Python's `str.strip` removes: space, tab, newline, carriage return,
vertical tab, form feed. -/
def pyIsSpace (c : Char) : Bool :=
  c = ' ' || c = '\t' || c = '\n' || c = '\r' || c = Char.ofNat 11 || c = Char.ofNat 12

/-- Python `line.strip()`: drop leading and trailing whitespace. -/
def pyStrip (s : String) : String :=
  String.mk (((s.toList.dropWhile pyIsSpace).reverse.dropWhile pyIsSpace).reverse)

/-- Helper for `pyIn`: does `n` occur as a contiguous sublist starting
at some suffix of `h`? -/
def infixAt (n : List Char) : List Char → Bool
  | [] => n.isEmpty
  | c :: rest => n.isPrefixOf (c :: rest) || infixAt n rest

/-- Python substring containment `needle in hay` (case-sensitive). -/
def pyIn (needle hay : String) : Bool :=
  infixAt needle.toList hay.toList

/-! ## Client registry (the Python set `clients`)

Clients are identified by a numeric id; the registry is the set
`clients`, modelled as a duplicate-free list. -/

abbrev Client := Nat

/-- Python `clients.remove(c)` on a set: removes `c` when present,
raises `KeyError` (modelled as `Except.error ()`) when absent.  Used by
the fan-out prune paths (server.py lines 57 and 99) and the shutdown
path (line 165). -/
def pySetRemove (reg : List Client) (c : Client) : Except Unit (List Client) :=
  if c ∈ reg then Except.ok (reg.erase c) else Except.error ()

/-- The guarded removal in `handle_client`'s `finally` block
(server.py lines 127-128): `if client_socket in clients:
clients.remove(client_socket)` — a no-op when absent. -/
def guardedRemove (reg : List Client) (c : Client) : List Client :=
  if c ∈ reg then reg.erase c else reg

/-- Python `clients.add(c)` on a set (server.py line 154). -/
def pySetAdd (reg : List Client) (c : Client) : List Client :=
  if c ∈ reg then reg else reg ++ [c]

/-! ## Fan-out / prune routine

Both `send_keep_alive` (lines 51-60) and the alert broadcast inside
`watch_log_file_by_inode` (lines 92-102) iterate over `list(clients)`
under `client_lock`, attempt `sendall` for each client, and handle send
failures identically.  The outcome of the `sendall` for each client is
an oracle `f : Client → SendRes`. -/

/-- Outcome of `client_socket.sendall(...)` for one client:
success; a recoverable transport error (`socket.error`,
`BrokenPipeError`, `ConnectionResetError`); or any other exception. -/
inductive SendRes
  | ok
  | transportErr
  | otherErr
deriving DecidableEq

/-- Observable actions of one fan-out pass. -/
inductive FEvent
  | sent (c : Client)
  | warned (c : Client)
  | removed (c : Client)
  | closed (c : Client)
  | loggedOther (c : Client)
deriving DecidableEq

/-- One fan-out pass over the snapshot `list(clients)`, threading the
live registry.  On `transportErr`: warn, `clients.remove` (the raw set
removal — a `KeyError` propagates out of the pass), close.  On any
other exception: log only, client stays registered. -/
def fanoutGo (f : Client → SendRes) :
    List Client → List Client → Except Unit (List Client × List FEvent)
  | [], reg => Except.ok (reg, [])
  | c :: rest, reg =>
    match f c with
    | SendRes.ok =>
      match fanoutGo f rest reg with
      | Except.ok (r, e) => Except.ok (r, FEvent.sent c :: e)
      | Except.error u => Except.error u
    | SendRes.transportErr =>
      match pySetRemove reg c with
      | Except.ok reg2 =>
        match fanoutGo f rest reg2 with
        | Except.ok (r, e) =>
            Except.ok (r, FEvent.warned c :: FEvent.removed c :: FEvent.closed c :: e)
        | Except.error u => Except.error u
      | Except.error u => Except.error u
    | SendRes.otherErr =>
      match fanoutGo f rest reg with
      | Except.ok (r, e) => Except.ok (r, FEvent.loggedOther c :: e)
      | Except.error u => Except.error u

/-- A full fan-out pass: the snapshot is the registry at entry. -/
def fanout (f : Client → SendRes) (reg : List Client) :
    Except Unit (List Client × List FEvent) :=
  fanoutGo f reg reg

/-! ### Fan-out correctness lemmas -/

theorem pySetRemove_mem {reg : List Client} {c : Client} (h : c ∈ reg) :
    pySetRemove reg c = Except.ok (reg.erase c) := by
  simp [pySetRemove, h]

theorem pySetRemove_not_mem {reg : List Client} {c : Client} (h : c ∉ reg) :
    pySetRemove reg c = Except.error () := by
  simp [pySetRemove, h]

/-- Master invariant for a fan-out pass: under a duplicate-free registry
containing the whole snapshot, the pass completes without a `KeyError`;
clients whose send hits a transport error are pruned (warned, removed,
closed); clients with a successful send or an unanticipated error stay
registered untouched; clients outside the snapshot are untouched. -/
theorem fanoutGo_spec (f : Client → SendRes) :
    ∀ (snap reg : List Client), snap.Nodup → reg.Nodup →
    (∀ c, c ∈ snap → c ∈ reg) →
    ∃ reg2 evs, fanoutGo f snap reg = Except.ok (reg2, evs) ∧
      reg2.Nodup ∧
      (∀ c, c ∈ snap →
        (f c = SendRes.transportErr →
          c ∉ reg2 ∧ FEvent.warned c ∈ evs ∧ FEvent.removed c ∈ evs ∧
            FEvent.closed c ∈ evs) ∧
        (f c ≠ SendRes.transportErr →
          (c ∈ reg2 ↔ c ∈ reg) ∧ FEvent.removed c ∉ evs ∧ FEvent.closed c ∉ evs) ∧
        (f c = SendRes.otherErr → FEvent.loggedOther c ∈ evs)) ∧
      (∀ c, c ∉ snap → (c ∈ reg2 ↔ c ∈ reg)) ∧
      (∀ c, FEvent.removed c ∈ evs → c ∈ snap) ∧
      (∀ c, FEvent.closed c ∈ evs → c ∈ snap) := by
  intro snap
  induction snap with
  | nil =>
    intro reg _ hregnd _
    exact ⟨reg, [], rfl, hregnd, by simp, by simp, by simp, by simp⟩
  | cons c0 rest ih =>
    intro reg hnd hregnd hsub
    have hc0reg : c0 ∈ reg := hsub c0 (by simp)
    have hndrest : rest.Nodup := (List.nodup_cons.mp hnd).2
    have hc0rest : c0 ∉ rest := (List.nodup_cons.mp hnd).1
    cases hf : f c0 with
    | ok =>
      obtain ⟨reg2, evs, heq, hnd2, hmem, hout, hremsnap, hclsnap⟩ :=
        ih reg hndrest hregnd (fun c hc => hsub c (by simp [hc]))
      refine ⟨reg2, FEvent.sent c0 :: evs, ?_, hnd2, ?_, ?_, ?_, ?_⟩
      · simp [fanoutGo, hf, heq]
      · intro d hd
        rcases List.mem_cons.mp hd with hd | hd
        · subst hd
          refine ⟨fun h => by simp [hf] at h, ?_, fun h => by simp [hf] at h⟩
          intro _
          have h1 : d ∈ reg2 ↔ d ∈ reg := hout d hc0rest
          refine ⟨h1, ?_, ?_⟩
          · simp only [List.mem_cons]
            rintro (h | h)
            · cases h
            · exact hc0rest (hremsnap d h)
          · simp only [List.mem_cons]
            rintro (h | h)
            · cases h
            · exact hc0rest (hclsnap d h)
        · have hbundle := hmem d hd
          refine ⟨fun h => ?_, fun h => ?_, fun h => ?_⟩
          · obtain ⟨h1, h2, h3, h4⟩ := hbundle.1 h
            exact ⟨h1, by simp [h2], by simp [h3], by simp [h4]⟩
          · obtain ⟨h1, h2, h3⟩ := hbundle.2.1 h
            refine ⟨h1, ?_, ?_⟩
            · simp only [List.mem_cons]
              rintro (hx | hx)
              · cases hx
              · exact h2 hx
            · simp only [List.mem_cons]
              rintro (hx | hx)
              · cases hx
              · exact h3 hx
          · simp [hbundle.2.2 h]
      · intro d hd
        have hdrest : d ∉ rest := fun h => hd (by simp [h])
        exact hout d hdrest
      · intro d hd
        simp only [List.mem_cons] at hd
        rcases hd with hd | hd
        · cases hd
        · exact List.mem_cons_of_mem _ (hremsnap d hd)
      · intro d hd
        simp only [List.mem_cons] at hd
        rcases hd with hd | hd
        · cases hd
        · exact List.mem_cons_of_mem _ (hclsnap d hd)
    | transportErr =>
      have herase : pySetRemove reg c0 = Except.ok (reg.erase c0) :=
        pySetRemove_mem hc0reg
      have hnderase : (reg.erase c0).Nodup := hregnd.erase c0
      have hsub2 : ∀ c, c ∈ rest → c ∈ reg.erase c0 := by
        intro c hc
        have hne : c ≠ c0 := fun h => hc0rest (h ▸ hc)
        exact (hregnd.mem_erase_iff).mpr ⟨hne, hsub c (by simp [hc])⟩
      obtain ⟨reg2, evs, heq, hnd2, hmem, hout, hremsnap, hclsnap⟩ :=
        ih (reg.erase c0) hndrest hnderase hsub2
      refine ⟨reg2,
        FEvent.warned c0 :: FEvent.removed c0 :: FEvent.closed c0 :: evs,
        ?_, hnd2, ?_, ?_, ?_, ?_⟩
      · simp [fanoutGo, hf, herase, heq]
      · intro d hd
        rcases List.mem_cons.mp hd with hd | hd
        · subst hd
          refine ⟨fun _ => ?_, fun h => absurd hf h, fun h => by simp [hf] at h⟩
          have hderase : d ∉ reg.erase d := by
            intro h
            exact absurd ((hregnd.mem_erase_iff).mp h).1 (by simp)
          have hiff : d ∈ reg2 ↔ d ∈ reg.erase d := hout d hc0rest
          exact ⟨fun h => hderase (hiff.mp h), by simp, by simp, by simp⟩
        · have hbundle := hmem d hd
          have hne : d ≠ c0 := fun h => hc0rest (h ▸ hd)
          refine ⟨fun h => ?_, fun h => ?_, fun h => ?_⟩
          · obtain ⟨h1, h2, h3, h4⟩ := hbundle.1 h
            exact ⟨h1, by simp [h2], by simp [h3], by simp [h4]⟩
          · obtain ⟨h1, h2, h3⟩ := hbundle.2.1 h
            refine ⟨?_, ?_, ?_⟩
            · rw [h1, hregnd.mem_erase_iff]
              exact ⟨fun h => h.2, fun h => ⟨hne, h⟩⟩
            · simp only [List.mem_cons]
              rintro (hx | hx | hx | hx)
              · cases hx
              · exact hne (by cases hx; rfl)
              · cases hx
              · exact h2 hx
            · simp only [List.mem_cons]
              rintro (hx | hx | hx | hx)
              · cases hx
              · cases hx
              · exact hne (by cases hx; rfl)
              · exact h3 hx
          · simp [hbundle.2.2 h]
      · intro d hd
        have hdrest : d ∉ rest := fun h => hd (by simp [h])
        have hne : d ≠ c0 := fun h => hd (by simp [h])
        rw [hout d hdrest, hregnd.mem_erase_iff]
        exact ⟨fun h => h.2, fun h => ⟨hne, h⟩⟩
      · intro d hd
        simp only [List.mem_cons] at hd
        rcases hd with hd | hd | hd | hd
        · cases hd
        · cases hd; simp
        · cases hd
        · exact List.mem_cons_of_mem _ (hremsnap d hd)
      · intro d hd
        simp only [List.mem_cons] at hd
        rcases hd with hd | hd | hd | hd
        · cases hd
        · cases hd
        · cases hd; simp
        · exact List.mem_cons_of_mem _ (hclsnap d hd)
    | otherErr =>
      obtain ⟨reg2, evs, heq, hnd2, hmem, hout, hremsnap, hclsnap⟩ :=
        ih reg hndrest hregnd (fun c hc => hsub c (by simp [hc]))
      refine ⟨reg2, FEvent.loggedOther c0 :: evs, ?_, hnd2, ?_, ?_, ?_, ?_⟩
      · simp [fanoutGo, hf, heq]
      · intro d hd
        rcases List.mem_cons.mp hd with hd | hd
        · subst hd
          refine ⟨fun h => by simp [hf] at h, ?_, fun _ => by simp⟩
          intro _
          have h1 : d ∈ reg2 ↔ d ∈ reg := hout d hc0rest
          refine ⟨h1, ?_, ?_⟩
          · simp only [List.mem_cons]
            rintro (h | h)
            · cases h
            · exact hc0rest (hremsnap d h)
          · simp only [List.mem_cons]
            rintro (h | h)
            · cases h
            · exact hc0rest (hclsnap d h)
        · have hbundle := hmem d hd
          refine ⟨fun h => ?_, fun h => ?_, fun h => ?_⟩
          · obtain ⟨h1, h2, h3, h4⟩ := hbundle.1 h
            exact ⟨h1, by simp [h2], by simp [h3], by simp [h4]⟩
          · obtain ⟨h1, h2, h3⟩ := hbundle.2.1 h
            refine ⟨h1, ?_, ?_⟩
            · simp only [List.mem_cons]
              rintro (hx | hx)
              · cases hx
              · exact h2 hx
            · simp only [List.mem_cons]
              rintro (hx | hx)
              · cases hx
              · exact h3 hx
          · simp [hbundle.2.2 h]
      · intro d hd
        have hdrest : d ∉ rest := fun h => hd (by simp [h])
        exact hout d hdrest
      · intro d hd
        simp only [List.mem_cons] at hd
        rcases hd with hd | hd
        · cases hd
        · exact List.mem_cons_of_mem _ (hremsnap d hd)
      · intro d hd
        simp only [List.mem_cons] at hd
        rcases hd with hd | hd
        · cases hd
        · exact List.mem_cons_of_mem _ (hclsnap d hd)

/-! ## Connection acceptor (`start_server`, lines 146-158)

Each accept-loop iteration accepts a raw connection and attempts the
TLS handshake.  Only `ssl.SSLError` is caught (line 156); any other
exception raised by `wrap_socket` propagates out of the `while` loop. -/

/-- Outcome of `context.wrap_socket(...)` for one accepted connection. -/
inductive HandshakeRes
  | success (c : Client)
  | sslError
  | otherError
deriving DecidableEq

/-- Observable actions of the accept loop. -/
inductive AEvent
  | secureLogged (c : Client)
  | added (c : Client)
  | receiverStarted (c : Client)
  | sslErrorLogged
  | rawClosed
deriving DecidableEq

/-- Whether the accept loop proceeds to the next iteration or exits. -/
inductive LoopCont
  | next
  | exit
deriving DecidableEq

/-- One iteration of the accept loop.  A successful handshake logs,
adds the encrypted connection under `client_lock`, then starts the
receiver thread; an `ssl.SSLError` is logged and the raw socket closed;
any other handshake exception escapes the loop. -/
def acceptIteration (h : HandshakeRes) (reg : List Client) :
    List Client × List AEvent × LoopCont :=
  match h with
  | HandshakeRes.success c =>
      (pySetAdd reg c,
        [AEvent.secureLogged c, AEvent.added c, AEvent.receiverStarted c],
        LoopCont.next)
  | HandshakeRes.sslError =>
      (reg, [AEvent.sslErrorLogged, AEvent.rawClosed], LoopCont.next)
  | HandshakeRes.otherError => (reg, [], LoopCont.exit)

/-- The accept loop over a sequence of handshake outcomes; stops at the
first iteration whose exception escapes. -/
def acceptLoop : List HandshakeRes → List Client → List Client × List AEvent
  | [], reg => (reg, [])
  | h :: rest, reg =>
    match acceptIteration h reg with
    | (reg2, evs, LoopCont.next) =>
      match acceptLoop rest reg2 with
      | (regF, evsF) => (regF, evs ++ evsF)
    | (reg2, evs, LoopCont.exit) => (reg2, evs)

/-! ## Per-connection receiver (`handle_client`, lines 112-129) -/

/-- Outcome of one `client_socket.recv(1024)` call. -/
inductive RecvRes
  | data (s : String)
  | zero
  | exc
deriving DecidableEq

/-- Observable actions of `handle_client`. -/
inductive REvent
  | receivedLog (s : String)
  | disconnectLog
  | errorLog
  | removed
  | closed
deriving DecidableEq

/-- The log entry `handle_client`'s loop produces for one recv
outcome. -/
def recvLogOf : RecvRes → REvent
  | RecvRes.data s => REvent.receivedLog s
  | RecvRes.zero => REvent.disconnectLog
  | RecvRes.exc => REvent.errorLog

/-- The receive loop of `handle_client`: log each received payload;
stop at the first zero-byte read (logged as a disconnect) or
exception (logged as an error). -/
def recvLoop : List RecvRes → List REvent
  | [] => []
  | RecvRes.data s :: rest => REvent.receivedLog s :: recvLoop rest
  | RecvRes.zero :: _ => [REvent.disconnectLog]
  | RecvRes.exc :: _ => [REvent.errorLog]

/-- `handle_client`: run the receive loop, then in the `finally` block
remove the connection from the registry if still a member and close
it. -/
def handle_client (recvs : List RecvRes) (reg : List Client) (c : Client) :
    List Client × List REvent :=
  (guardedRemove reg c,
    recvLoop recvs ++ (if c ∈ reg then [REvent.removed] else []) ++ [REvent.closed])

theorem recvLoop_data_segment (before tail : List RecvRes)
    (hb : ∀ x, x ∈ before → ∃ s, x = RecvRes.data s) :
    recvLoop (before ++ tail) = before.map recvLogOf ++ recvLoop tail := by
  induction before with
  | nil => simp
  | cons x xs ih =>
    obtain ⟨s, rfl⟩ := hb x (by simp)
    simp only [List.cons_append, recvLoop, List.map_cons, recvLogOf, List.append_eq]
    rw [ih (fun y hy => hb y (by simp [hy]))]

/-! ## Shutdown path (`start_server`, lines 159-167) -/

/-- Observable actions of the shutdown path. -/
inductive SEvent
  | closedConn (c : Client)
  | removedConn (c : Client)
  | serverClosed
deriving DecidableEq

/-- Shutdown loop body: for each client of the snapshot `list(clients)`,
close it, then `clients.remove` it (the raw set removal); finally close
the listening socket. -/
def shutdownGo : List Client → List Client → Except Unit (List Client × List SEvent)
  | [], reg => Except.ok (reg, [SEvent.serverClosed])
  | c :: rest, reg =>
    match pySetRemove reg c with
    | Except.ok reg2 =>
      match shutdownGo rest reg2 with
      | Except.ok (r, e) =>
          Except.ok (r, SEvent.closedConn c :: SEvent.removedConn c :: e)
      | Except.error u => Except.error u
    | Except.error u => Except.error u

/-- The `finally` block of `start_server`: iterate the registry
snapshot under `client_lock`, close and remove every client, then close
the server socket. -/
def start_server_shutdown (reg : List Client) :
    Except Unit (List Client × List SEvent) :=
  shutdownGo reg reg

theorem shutdownGo_spec : ∀ (snap cur : List Client), snap.Nodup → cur.Nodup →
    (∀ x, x ∈ cur ↔ x ∈ snap) →
    ∃ body, shutdownGo snap cur = Except.ok ([], body ++ [SEvent.serverClosed]) ∧
      ∀ c, c ∈ snap → SEvent.closedConn c ∈ body ∧ SEvent.removedConn c ∈ body := by
  intro snap
  induction snap with
  | nil =>
    intro cur _ _ hiff
    have hnil : cur = [] :=
      List.eq_nil_iff_forall_not_mem.mpr (fun x hx => by simpa using (hiff x).mp hx)
    subst hnil
    exact ⟨[], rfl, by simp⟩
  | cons c0 rest ih =>
    intro cur hnd hcnd hiff
    have hc0cur : c0 ∈ cur := (hiff c0).mpr (by simp)
    have hndrest : rest.Nodup := (List.nodup_cons.mp hnd).2
    have hc0rest : c0 ∉ rest := (List.nodup_cons.mp hnd).1
    have herase : pySetRemove cur c0 = Except.ok (cur.erase c0) :=
      pySetRemove_mem hc0cur
    have hiff2 : ∀ x, x ∈ cur.erase c0 ↔ x ∈ rest := by
      intro x
      rw [hcnd.mem_erase_iff]
      constructor
      · rintro ⟨hne, hx⟩
        rcases List.mem_cons.mp ((hiff x).mp hx) with h | h
        · exact absurd h hne
        · exact h
      · intro hx
        have hne : x ≠ c0 := fun h => hc0rest (h ▸ hx)
        exact ⟨hne, (hiff x).mpr (by simp [hx])⟩
    obtain ⟨body, heq, hmem⟩ := ih (cur.erase c0) hndrest (hcnd.erase c0) hiff2
    refine ⟨SEvent.closedConn c0 :: SEvent.removedConn c0 :: body, ?_, ?_⟩
    · simp [shutdownGo, herase, heq]
    · intro c hc
      rcases List.mem_cons.mp hc with hc | hc
      · subst hc
        exact ⟨by simp, by simp⟩
      · obtain ⟨h1, h2⟩ := hmem c hc
        exact ⟨by simp [h1], by simp [h2]⟩

/-! ## Lock discipline around the client registry

Every syntactic access to the shared set `clients` in `server.py`,
together with the lock each access holds.  `client_lock` is the module
level mutex (line 46); `handle_client`'s `finally` block instead does
`with threading.Lock():` (line 126), acquiring a brand-new lock object
created for that single call. -/

/-- Which mutex a registry access holds. -/
inductive LockUsed
  | clientLock
  | freshLocalLock
deriving DecidableEq

/-- One syntactic access to the `clients` set. -/
structure RegistryAccess where
  site : String
  line : Nat
  lock : LockUsed
deriving DecidableEq

/-- The registry access performed by `handle_client`'s `finally` block:
its membership test and removal run under a freshly created lock
object, not `client_lock`. -/
def receiverRemovalSite : RegistryAccess :=
  { site := "handle_client finally-block membership test and removal",
    line := 126, lock := LockUsed.freshLocalLock }

/-- All accesses to `clients` in `server.py`. -/
def registryAccesses : List RegistryAccess :=
  [ { site := "send_keep_alive fan-out iterate and prune", line := 51,
      lock := LockUsed.clientLock },
    { site := "watch_log_file_by_inode alert fan-out iterate and prune", line := 92,
      lock := LockUsed.clientLock },
    { site := "start_server add after TLS handshake", line := 153,
      lock := LockUsed.clientLock },
    receiverRemovalSite,
    { site := "start_server shutdown iterate, close and remove", line := 162,
      lock := LockUsed.clientLock } ]

/-! ## Claim theorems (registry, fan-out, acceptor, receiver, shutdown) -/

/-- Claim C3: the claim states that every mutation and iteration of the
client registry happens under the one shared registry mutex and that no
access uses a different lock.  This fails: `handle_client`'s `finally`
block (server.py line 126) performs its membership test and removal
under `with threading.Lock():`, a freshly created lock object, so that
removal is not serialized with any other registry access. -/
theorem handle_client_removal_not_under_client_lock :
    (∃ a, a ∈ registryAccesses ∧ a.lock = LockUsed.freshLocalLock ∧
      a.line = 126) ∧
    (registryAccesses.filter (fun a => a.lock == LockUsed.clientLock)).length = 4 ∧
    registryAccesses.length = 5 := by
  refine ⟨⟨receiverRemovalSite, by decide, rfl, rfl⟩, rfl, rfl⟩

/-- Claim C4: during a fan-out pass over a duplicate-free registry, a
client whose send fails with a recoverable transport error is warned
about, removed from the registry and closed, while a client whose send
fails with any other exception is only logged and remains registered;
clients with successful sends also remain registered. -/
theorem fanout_prunes_only_on_transport_error (f : Client → SendRes)
    (reg : List Client) (c : Client) (hnd : reg.Nodup) (hc : c ∈ reg) :
    ∃ reg2 evs, fanout f reg = Except.ok (reg2, evs) ∧
      (f c = SendRes.transportErr →
        c ∉ reg2 ∧ FEvent.warned c ∈ evs ∧ FEvent.removed c ∈ evs ∧
          FEvent.closed c ∈ evs) ∧
      (f c ≠ SendRes.transportErr →
        c ∈ reg2 ∧ FEvent.removed c ∉ evs ∧ FEvent.closed c ∉ evs) ∧
      (f c = SendRes.otherErr → FEvent.loggedOther c ∈ evs) := by
  obtain ⟨reg2, evs, heq, _, hmem, _, _, _⟩ :=
    fanoutGo_spec f reg reg hnd hnd (fun _ h => h)
  refine ⟨reg2, evs, heq, fun h => (hmem c hc).1 h, ?_, fun h => (hmem c hc).2.2 h⟩
  intro h
  obtain ⟨h1, h2, h3⟩ := (hmem c hc).2.1 h
  exact ⟨h1.mpr hc, h2, h3⟩

/-- Send oracle for the C4 witness: client 1 hits a transport error,
client 2 an unanticipated error, client 3 succeeds. -/
def sendOracle : Client → SendRes := fun n =>
  if n = 1 then SendRes.transportErr
  else if n = 2 then SendRes.otherErr
  else SendRes.ok

/-- Witness for claim C4 at the concrete registry `[1, 2, 3]`: client 1
hits a transport error and is warned about, removed and closed. -/
theorem fanout_prunes_only_on_transport_error_witness :
    ∃ reg2 evs, fanout sendOracle [1, 2, 3] = Except.ok (reg2, evs) ∧
      FEvent.warned 1 ∈ evs ∧ FEvent.removed 1 ∈ evs ∧
      FEvent.closed 1 ∈ evs := by
  obtain ⟨reg2, evs, heq, ht1, _, _⟩ :=
    fanout_prunes_only_on_transport_error sendOracle [1, 2, 3] 1
      (by decide) (by decide)
  obtain ⟨_, hw, hr, hc⟩ := ht1 (by decide)
  exact ⟨reg2, evs, heq, hw, hr, hc⟩

/-- Claim C5 counterexample: the claim states that no handshake failure
of any kind terminates the accept loop, but only `ssl.SSLError` is
caught; a handshake failure raising any other exception (for example a
connection reset during `wrap_socket`) escapes the loop.  Concretely, a
non-SSL handshake failure followed by a would-be successful connection
leaves the loop dead: the later client is never registered. -/
theorem accept_loop_killed_by_non_ssl_handshake_failure :
    acceptLoop [HandshakeRes.otherError, HandshakeRes.success 5] [] = ([], []) ∧
    (acceptIteration HandshakeRes.otherError []).2.2 = LoopCont.exit := by
  exact ⟨rfl, rfl⟩

/-- Claim C5 (amended): a handshake failure raising `ssl.SSLError` is
logged, the raw socket closed, and the loop continues with the registry
unchanged; on handshake success the encrypted connection is added to
the registry and only then is the receiver started; a handshake failure
raising any other exception terminates the accept loop. -/
theorem accept_iteration_spec (reg : List Client) (c : Client)
    (rest : List HandshakeRes) :
    acceptIteration HandshakeRes.sslError reg =
      (reg, [AEvent.sslErrorLogged, AEvent.rawClosed], LoopCont.next) ∧
    acceptLoop (HandshakeRes.sslError :: rest) reg =
      ((acceptLoop rest reg).1,
        AEvent.sslErrorLogged :: AEvent.rawClosed :: (acceptLoop rest reg).2) ∧
    acceptIteration (HandshakeRes.success c) reg =
      (pySetAdd reg c,
        [AEvent.secureLogged c, AEvent.added c, AEvent.receiverStarted c],
        LoopCont.next) ∧
    c ∈ (acceptIteration (HandshakeRes.success c) reg).1 ∧
    acceptIteration HandshakeRes.otherError reg = (reg, [], LoopCont.exit) := by
  refine ⟨rfl, ?_, rfl, ?_, rfl⟩
  · simp only [acceptLoop, acceptIteration]
    rcases acceptLoop rest reg with ⟨regF, evsF⟩
    simp
  · simp only [acceptIteration, pySetAdd]
    by_cases h : c ∈ reg <;> simp [h]

/-- Claim C6: the per-connection receiver stops at the first zero-byte
read (logging the disconnect) or at the first transport exception
(logging the error), never reading further; it then removes the
connection from the registry when still a member and closes it, with
the removal preceding the close. -/
theorem receiver_stops_then_removes_then_closes
    (before after recvs : List RecvRes) (reg : List Client) (c : Client)
    (hnd : reg.Nodup)
    (hb : ∀ x, x ∈ before → ∃ s, x = RecvRes.data s) :
    recvLoop (before ++ RecvRes.zero :: after) =
      before.map recvLogOf ++ [REvent.disconnectLog] ∧
    recvLoop (before ++ RecvRes.exc :: after) =
      before.map recvLogOf ++ [REvent.errorLog] ∧
    (c ∈ reg →
      (handle_client recvs reg c).2 =
        recvLoop recvs ++ [REvent.removed, REvent.closed] ∧
      c ∉ (handle_client recvs reg c).1) ∧
    (c ∉ reg →
      (handle_client recvs reg c).2 = recvLoop recvs ++ [REvent.closed] ∧
      (handle_client recvs reg c).1 = reg) := by
  refine ⟨?_, ?_, ?_, ?_⟩
  · rw [recvLoop_data_segment before (RecvRes.zero :: after) hb]
    rfl
  · rw [recvLoop_data_segment before (RecvRes.exc :: after) hb]
    rfl
  · intro h
    constructor
    · simp [handle_client, h]
    · simp only [handle_client, guardedRemove, h, if_pos]
      intro hmem
      exact absurd ((hnd.mem_erase_iff).mp hmem).1 (by simp)
  · intro h
    exact ⟨by simp [handle_client, h], by simp [handle_client, guardedRemove, h]⟩

/-- Witness for claim C6: one data payload, then the peer closes; the
receiver stops at the zero-byte read and removes then closes. -/
theorem receiver_stops_then_removes_then_closes_witness :
    recvLoop [RecvRes.data "ping", RecvRes.zero, RecvRes.data "late"] =
      [REvent.receivedLog "ping", REvent.disconnectLog] ∧
    (handle_client [RecvRes.zero] [7] 7).2 =
      recvLoop [RecvRes.zero] ++ [REvent.removed, REvent.closed] := by
  have h := receiver_stops_then_removes_then_closes [RecvRes.data "ping"]
    [RecvRes.data "late"] [RecvRes.zero] [7] 7 (by decide)
    (fun x hx => ⟨"ping", by simpa using hx⟩)
  exact ⟨h.1, (h.2.2.1 (by decide)).1⟩

/-- Claim C8 counterexample: the claim states that removal of an absent
connection is a no-op on every removal path including the fan-out prune
path; but the fan-out prune uses the raw set removal, which raises
`KeyError` when the client is absent (as after a concurrent removal by
the receiver), aborting the pass. -/
theorem fanout_prune_raises_on_absent_client :
    fanoutGo (fun _ => SendRes.transportErr) [0] [] = Except.error () := by
  rfl

/-- Claim C8 (amended): the receiver's removal path is guarded by a
membership test and is a no-op raising no error when the connection is
absent; the fan-out prune path's removal succeeds exactly when the
client is still registered and raises `KeyError` when it is absent, so
only the receiver path tolerates concurrent double-removal. -/
theorem guarded_remove_noop_raw_remove_raises (reg : List Client) (c : Client) :
    (c ∉ reg → guardedRemove reg c = reg ∧ pySetRemove reg c = Except.error ()) ∧
    (c ∈ reg → guardedRemove reg c = reg.erase c ∧
      pySetRemove reg c = Except.ok (reg.erase c)) := by
  constructor
  · intro h
    exact ⟨by simp [guardedRemove, h], by simp [pySetRemove, h]⟩
  · intro h
    exact ⟨by simp [guardedRemove, h], by simp [pySetRemove, h]⟩

/-- Witness for the amended claim C8 at client 0 and registry `[3]`. -/
theorem guarded_remove_noop_witness :
    guardedRemove [3] 0 = [3] ∧ pySetRemove [3] 0 = Except.error () :=
  (guarded_remove_noop_raw_remove_raises [3] 0).1 (by decide)

/-- Claim C10: on operator shutdown, every connection still in the
registry is closed and removed, the registry is left empty, and the
listening socket is closed afterwards. -/
theorem shutdown_closes_all_then_listener (reg : List Client)
    (hnd : reg.Nodup) :
    ∃ body, start_server_shutdown reg =
        Except.ok ([], body ++ [SEvent.serverClosed]) ∧
      ∀ c, c ∈ reg → SEvent.closedConn c ∈ body ∧ SEvent.removedConn c ∈ body :=
  shutdownGo_spec reg reg hnd hnd (fun _ => Iff.rfl)

/-- Witness for claim C10 at the concrete registry `[4, 5]`. -/
theorem shutdown_closes_all_then_listener_witness :
    ∃ body, start_server_shutdown [4, 5] =
        Except.ok ([], body ++ [SEvent.serverClosed]) ∧
      SEvent.closedConn 4 ∈ body ∧ SEvent.removedConn 4 ∈ body ∧
      SEvent.closedConn 5 ∈ body ∧ SEvent.removedConn 5 ∈ body := by
  obtain ⟨body, heq, hmem⟩ := shutdown_closes_all_then_listener [4, 5] (by decide)
  exact ⟨body, heq, (hmem 4 (by decide)).1, (hmem 4 (by decide)).2,
    (hmem 5 (by decide)).1, (hmem 5 (by decide)).2⟩

/-! ## Log tail monitor (`watch_log_file_by_inode`, lines 63-110)

The monitor is a poll loop over the state
`{ current_inode (optional), file_handle (optional) }`.  We model an
open file handle with its bound inode, its read position (the index of
the next line the handle will yield), the ghost field `openLen`
recording the file length at the moment the handle was opened (the
target of the seek-to-end), and whether the handle has been closed.
One poll tick observes a filesystem environment: whether the path
exists, the inode `os.stat` reports, the inode of the file `open` binds
(these differ exactly when the path is rebound between the two calls),
the current line count and content of every inode's file, and fault
flags for each operation that can raise. -/

/-- An open Python file handle on the watched log. -/
structure Handle where
  ino : Nat
  pos : Nat
  openLen : Nat
  closed : Bool
deriving DecidableEq

/-- The Log Watcher State of `watch_log_file_by_inode`. -/
structure WatchState where
  current_inode : Option Nat
  handle : Option Handle
deriving DecidableEq

/-- The filesystem and fault environment one poll tick observes. -/
structure TickEnv where
  pathExists : Bool
  statIno : Nat
  openIno : Nat
  lenOf : Nat → Nat
  lineAt : Nat → Nat → String
  statRaises : Bool
  openRaises : Bool
  readRaises : Bool
  fanoutRaises : Bool

/-- Observable actions of one poll tick. -/
inductive WEvent
  | waitingLogged
  | slept
  | closedOld
  | opened (ino len : Nat)
  | readLine (ino idx : Nat) (line : String)
  | keywordLogged (line : String)
  | alertBroadcast (payload : String)
  | errorLogged
  | inodeReset
deriving DecidableEq

/-- The (re)open step (lines 75-83): close any previously open handle,
open the file currently at the path, record the inode the earlier
`os.stat` observed, and seek to end-of-file.  If `open` raises, the old
handle has already been closed. -/
def doOpen (env : TickEnv) (st : WatchState) : WatchState × List WEvent × Bool :=
  if env.openRaises then
    match st.handle with
    | some h =>
      ({ st with handle := some { h with closed := true } }, [WEvent.closedOld], true)
    | none => (st, [], true)
  else
    match st.handle with
    | some _ =>
      ({ current_inode := some env.statIno,
         handle := some { ino := env.openIno, pos := env.lenOf env.openIno,
                          openLen := env.lenOf env.openIno, closed := false } },
       [WEvent.closedOld, WEvent.opened env.openIno (env.lenOf env.openIno)], false)
    | none =>
      ({ current_inode := some env.statIno,
         handle := some { ino := env.openIno, pos := env.lenOf env.openIno,
                          openLen := env.lenOf env.openIno, closed := false } },
       [WEvent.opened env.openIno (env.lenOf env.openIno)], false)

/-- The readline-and-match step (lines 85-102): read one line; empty
read sleeps; a line containing the keyword is logged and fanned out
with the payload `"Keyword alert: "` followed by the stripped line.  A
missing or closed handle, a read fault, or a fault during the fan-out
raises. -/
def doRead (env : TickEnv) (keyword : String) (st : WatchState) :
    WatchState × List WEvent × Bool :=
  match st.handle with
  | none => (st, [], true)
  | some h =>
    if h.closed then (st, [], true)
    else if env.readRaises then (st, [], true)
    else if h.pos < env.lenOf h.ino then
      if pyIn keyword (env.lineAt h.ino h.pos) then
        ({ st with handle := some { h with pos := h.pos + 1 } },
         [WEvent.readLine h.ino h.pos (env.lineAt h.ino h.pos),
          WEvent.keywordLogged (env.lineAt h.ino h.pos),
          WEvent.alertBroadcast ("Keyword alert: " ++ pyStrip (env.lineAt h.ino h.pos))],
         env.fanoutRaises)
      else
        ({ st with handle := some { h with pos := h.pos + 1 } },
         [WEvent.readLine h.ino h.pos (env.lineAt h.ino h.pos)], false)
    else (st, [WEvent.slept], false)

/-- The `try` body of one poll tick: wait while the path is missing;
stat; (re)open on inode change; then read. -/
def tickBody (env : TickEnv) (keyword : String) (st : WatchState) :
    WatchState × List WEvent × Bool :=
  if env.pathExists = false then (st, [WEvent.waitingLogged, WEvent.slept], false)
  else if env.statRaises then (st, [], true)
  else if st.current_inode = some env.statIno then doRead env keyword st
  else
    match doOpen env st with
    | (st1, ev1, true) => (st1, ev1, true)
    | (st1, ev1, false) =>
      match doRead env keyword st1 with
      | (st2, ev2, err2) => (st2, ev1 ++ ev2, err2)

/-- One full poll tick: the `try` body, the `except Exception` handler
(log the error and sleep one poll interval), and the `finally` block
(reset `current_inode` whenever the handle is found closed). -/
def tick (env : TickEnv) (keyword : String) (st : WatchState) :
    WatchState × List WEvent :=
  match tickBody env keyword st with
  | (st1, evs, errored) =>
    let evs1 := if errored then evs ++ [WEvent.errorLogged, WEvent.slept] else evs
    match st1.handle with
    | some h =>
      if h.closed then ({ st1 with current_inode := none }, evs1 ++ [WEvent.inodeReset])
      else (st1, evs1)
    | none => (st1, evs1)

/-- The monitor loop over a trace of per-tick environments; each tick's
events are collected.  The loop body catches every exception, so every
environment of the trace is processed. -/
def runWatch (keyword : String) :
    List TickEnv → WatchState → WatchState × List (List WEvent)
  | [], st => (st, [])
  | env :: envs, st =>
    match tick env keyword st with
    | (st1, evs) =>
      match runWatch keyword envs st1 with
      | (stF, rest) => (stF, evs :: rest)

/-- The monitor's state at startup (line 65-66). -/
def initialWatchState : WatchState := { current_inode := none, handle := none }

/-- Seek invariant: a handle never sits before the position it was
seeked to at open time. -/
def SeekInv (st : WatchState) : Prop :=
  ∀ h, st.handle = some h → h.openLen ≤ h.pos

/-- Inode invariant (spec section 3): when an open, unclosed handle is
present, `current_inode` is the inode of the file bound to it. -/
def InodeInv (st : WatchState) : Prop :=
  ∀ h, st.handle = some h → h.closed = false → st.current_inode = some h.ino

/-- Executable form of `InodeInv`. -/
def inodeInvCheck (st : WatchState) : Bool :=
  match st.handle with
  | some h => if h.closed then true else st.current_inode == some h.ino
  | none => true

theorem inodeInvCheck_iff (st : WatchState) :
    inodeInvCheck st = true ↔ InodeInv st := by
  constructor
  · intro hchk h hsome hcl
    unfold inodeInvCheck at hchk
    rw [hsome] at hchk
    simp only [hcl] at hchk
    simpa using hchk
  · intro hi
    unfold inodeInvCheck
    cases hh : st.handle with
    | none => rfl
    | some h0 =>
      by_cases hc : h0.closed = true
      · simp [hc]
      · have hc2 : h0.closed = false := by simpa using hc
        simp [hc2, hi h0 hh hc2]

/-- A fan-out invocation event. -/
def isAlert : WEvent → Bool
  | WEvent.alertBroadcast _ => true
  | _ => false

/-- Number of fan-out invocations among a tick's events. -/
def countAlerts (evs : List WEvent) : Nat := (evs.filter isAlert).length

theorem countAlerts_append (a b : List WEvent) :
    countAlerts (a ++ b) = countAlerts a + countAlerts b := by
  simp [countAlerts, List.filter_append]

theorem countAlerts_eq_zero (evs : List WEvent)
    (h : ∀ e, e ∈ evs → isAlert e = false) : countAlerts evs = 0 := by
  simp only [countAlerts, List.length_eq_zero]
  exact List.filter_eq_nil_iff.mpr (fun e he => by simp [h e he])

/-! ### Case-analysis lemmas for the tick components -/

theorem doOpen_cases (env : TickEnv) (st : WatchState) :
    (env.openRaises = true ∧ (doOpen env st).2.2 = true ∧
      (doOpen env st).1.current_inode = st.current_inode ∧
      (∀ h2, (doOpen env st).1.handle = some h2 →
        ∃ h0, st.handle = some h0 ∧ h2 = { h0 with closed := true })) ∨
    (env.openRaises = false ∧ (doOpen env st).2.2 = false ∧
      (doOpen env st).1 =
        { current_inode := some env.statIno,
          handle := some { ino := env.openIno, pos := env.lenOf env.openIno,
                           openLen := env.lenOf env.openIno, closed := false } } ∧
      WEvent.opened env.openIno (env.lenOf env.openIno) ∈ (doOpen env st).2.1 ∧
      (∀ h0, st.handle = some h0 → WEvent.closedOld ∈ (doOpen env st).2.1)) := by
  by_cases hr : env.openRaises = true
  · left
    refine ⟨hr, ?_, ?_, ?_⟩
    · rcases hh : st.handle with _ | h0 <;> simp [doOpen, hr, hh]
    · rcases hh : st.handle with _ | h0 <;> simp [doOpen, hr, hh]
    · intro h2 hsome
      rcases hh : st.handle with _ | h0
      · simp [doOpen, hr, hh] at hsome
      · simp [doOpen, hr, hh] at hsome
        exact ⟨h0, rfl, hsome.symm⟩
  · have hr2 : env.openRaises = false := by simpa using hr
    right
    refine ⟨hr2, ?_, ?_, ?_, ?_⟩
    · rcases hh : st.handle with _ | h0 <;> simp [doOpen, hr2, hh]
    · rcases hh : st.handle with _ | h0 <;> simp [doOpen, hr2, hh]
    · rcases hh : st.handle with _ | h0 <;> simp [doOpen, hr2, hh]
    · intro h0 hh
      simp [doOpen, hr2, hh]

theorem doOpen_events (env : TickEnv) (st : WatchState) :
    ∀ e, e ∈ (doOpen env st).2.1 →
      e = WEvent.closedOld ∨ e = WEvent.opened env.openIno (env.lenOf env.openIno) := by
  intro e he
  by_cases hr : env.openRaises = true
  · rcases hh : st.handle with _ | h0 <;> simp [doOpen, hr, hh] at he
    exact Or.inl he
  · have hr2 : env.openRaises = false := by simpa using hr
    rcases hh : st.handle with _ | h0 <;> simp [doOpen, hr2, hh] at he
    · exact Or.inr he
    · exact he

theorem doOpen_seekInv (env : TickEnv) (st : WatchState) (hinv : SeekInv st) :
    SeekInv (doOpen env st).1 := by
  intro h2 hsome
  by_cases hr : env.openRaises = true
  · rcases hh : st.handle with _ | h0
    · simp [doOpen, hr, hh] at hsome
    · simp [doOpen, hr, hh] at hsome
      rw [← hsome]
      simpa using hinv h0 hh
  · have hr2 : env.openRaises = false := by simpa using hr
    rcases hh : st.handle with _ | h0 <;> simp [doOpen, hr2, hh] at hsome <;>
      rw [← hsome]

theorem doRead_cases (env : TickEnv) (k : String) (st : WatchState) :
    ((doRead env k st).1 = st ∧
      ((doRead env k st).2.1 = [] ∨ (doRead env k st).2.1 = [WEvent.slept])) ∨
    (∃ h, st.handle = some h ∧ h.closed = false ∧ h.pos < env.lenOf h.ino ∧
      (doRead env k st).1 = { st with handle := some { h with pos := h.pos + 1 } } ∧
      ((pyIn k (env.lineAt h.ino h.pos) = true ∧
         (doRead env k st).2.1 =
           [WEvent.readLine h.ino h.pos (env.lineAt h.ino h.pos),
            WEvent.keywordLogged (env.lineAt h.ino h.pos),
            WEvent.alertBroadcast
              ("Keyword alert: " ++ pyStrip (env.lineAt h.ino h.pos))]) ∨
       (pyIn k (env.lineAt h.ino h.pos) = false ∧
         (doRead env k st).2.1 =
           [WEvent.readLine h.ino h.pos (env.lineAt h.ino h.pos)]))) := by
  rcases hh : st.handle with _ | h
  · exact Or.inl ⟨by simp [doRead, hh], Or.inl (by simp [doRead, hh])⟩
  · by_cases hc : h.closed = true
    · exact Or.inl ⟨by simp [doRead, hh, hc], Or.inl (by simp [doRead, hh, hc])⟩
    · have hc2 : h.closed = false := by simpa using hc
      by_cases hr : env.readRaises = true
      · exact Or.inl ⟨by simp [doRead, hh, hc2, hr],
          Or.inl (by simp [doRead, hh, hc2, hr])⟩
      · have hr2 : env.readRaises = false := by simpa using hr
        by_cases hp : h.pos < env.lenOf h.ino
        · right
          refine ⟨h, rfl, hc2, hp, ?_, ?_⟩
          · by_cases hk : pyIn k (env.lineAt h.ino h.pos) = true
            · simp [doRead, hh, hc2, hr2, hp, hk]
            · have hk2 : pyIn k (env.lineAt h.ino h.pos) = false := by simpa using hk
              simp [doRead, hh, hc2, hr2, hp, hk2]
          · by_cases hk : pyIn k (env.lineAt h.ino h.pos) = true
            · exact Or.inl ⟨hk, by simp [doRead, hh, hc2, hr2, hp, hk]⟩
            · have hk2 : pyIn k (env.lineAt h.ino h.pos) = false := by simpa using hk
              exact Or.inr ⟨hk2, by simp [doRead, hh, hc2, hr2, hp, hk2]⟩
        · exact Or.inl ⟨by simp [doRead, hh, hc2, hr2, hp],
            Or.inr (by simp [doRead, hh, hc2, hr2, hp])⟩

theorem doRead_inode (env : TickEnv) (k : String) (st : WatchState) :
    (doRead env k st).1.current_inode = st.current_inode := by
  rcases doRead_cases env k st with ⟨hst, _⟩ | ⟨h, _, _, _, hst, _⟩ <;> rw [hst]

theorem doRead_reads (env : TickEnv) (k : String) (st : WatchState)
    (hinv : SeekInv st) :
    SeekInv (doRead env k st).1 ∧
    ∀ ino idx line, WEvent.readLine ino idx line ∈ (doRead env k st).2.1 →
      ∃ h2, (doRead env k st).1.handle = some h2 ∧ h2.ino = ino ∧
        h2.openLen ≤ idx ∧ idx + 1 = h2.pos := by
  rcases doRead_cases env k st with ⟨hst, hev⟩ | ⟨h, hsome, _, _, hst, hev⟩
  · constructor
    · rw [hst]; exact hinv
    · intro ino idx line hmem
      rcases hev with hev | hev <;> rw [hev] at hmem <;> simp at hmem
  · have hle : h.openLen ≤ h.pos := hinv h hsome
    constructor
    · intro h2 hsome2
      rw [hst] at hsome2
      simp at hsome2
      rw [← hsome2]
      simpa using Nat.le_succ_of_le hle
    · intro ino idx line hmem
      refine ⟨{ h with pos := h.pos + 1 }, by rw [hst], ?_⟩
      rcases hev with ⟨_, hev⟩ | ⟨_, hev⟩ <;> rw [hev] at hmem <;> simp at hmem
      · obtain ⟨h1, h2, _⟩ := hmem
        exact ⟨by simp [h1.symm], by simpa using hle.trans (Nat.le_of_eq h2.symm), by simp [h2.symm]⟩
      · obtain ⟨h1, h2, _⟩ := hmem
        exact ⟨by simp [h1.symm], by simpa using hle.trans (Nat.le_of_eq h2.symm), by simp [h2.symm]⟩

theorem doRead_alerts (env : TickEnv) (k : String) (st : WatchState) :
    ∀ ino idx line, WEvent.readLine ino idx line ∈ (doRead env k st).2.1 →
      (pyIn k line = true →
        countAlerts (doRead env k st).2.1 = 1 ∧
        WEvent.alertBroadcast ("Keyword alert: " ++ pyStrip line) ∈
          (doRead env k st).2.1) ∧
      (pyIn k line = false → countAlerts (doRead env k st).2.1 = 0) := by
  intro ino idx line hmem
  rcases doRead_cases env k st with ⟨_, hev⟩ | ⟨h, _, _, _, _, hev⟩
  · rcases hev with hev | hev <;> rw [hev] at hmem <;> simp at hmem
  · rcases hev with ⟨hk, hev⟩ | ⟨hk, hev⟩
    · rw [hev] at hmem
      simp at hmem
      obtain ⟨_, _, hline⟩ := hmem
      rw [← hline] at hk
      constructor
      · intro _
        rw [hev, hline]
        exact ⟨by simp [countAlerts, isAlert], by simp⟩
      · intro hfalse
        rw [hfalse] at hk
        cases hk
    · rw [hev] at hmem
      simp at hmem
      obtain ⟨_, _, hline⟩ := hmem
      rw [← hline] at hk
      constructor
      · intro htrue
        rw [htrue] at hk
        cases hk
      · intro _
        rw [hev]
        simp [countAlerts, isAlert]

theorem tickBody_cases (env : TickEnv) (k : String) (st : WatchState) :
    (env.pathExists = false ∧
      tickBody env k st = (st, [WEvent.waitingLogged, WEvent.slept], false)) ∨
    (env.pathExists = true ∧ env.statRaises = true ∧
      tickBody env k st = (st, [], true)) ∨
    (env.pathExists = true ∧ env.statRaises = false ∧
      st.current_inode = some env.statIno ∧
      tickBody env k st = doRead env k st) ∨
    (env.pathExists = true ∧ env.statRaises = false ∧
      st.current_inode ≠ some env.statIno ∧ (doOpen env st).2.2 = true ∧
      tickBody env k st = ((doOpen env st).1, (doOpen env st).2.1, true)) ∨
    (env.pathExists = true ∧ env.statRaises = false ∧
      st.current_inode ≠ some env.statIno ∧ (doOpen env st).2.2 = false ∧
      tickBody env k st =
        ((doRead env k (doOpen env st).1).1,
         (doOpen env st).2.1 ++ (doRead env k (doOpen env st).1).2.1,
         (doRead env k (doOpen env st).1).2.2)) := by
  by_cases hex : env.pathExists = false
  · exact Or.inl ⟨hex, by simp [tickBody, hex]⟩
  · have hex2 : env.pathExists = true := by simpa using hex
    by_cases hsr : env.statRaises = true
    · exact Or.inr (Or.inl ⟨hex2, hsr, by simp [tickBody, hex2, hsr]⟩)
    · have hsr2 : env.statRaises = false := by simpa using hsr
      by_cases hio : st.current_inode = some env.statIno
      · exact Or.inr (Or.inr (Or.inl ⟨hex2, hsr2, hio,
          by simp [tickBody, hex2, hsr2, hio]⟩))
      · rcases hdo : doOpen env st with ⟨st1, ev1, err1⟩
        cases err1 with
        | true =>
          refine Or.inr (Or.inr (Or.inr (Or.inl ⟨hex2, hsr2, hio, by simp [hdo], ?_⟩)))
          simp [tickBody, hex2, hsr2, hio, hdo]
        | false =>
          refine Or.inr (Or.inr (Or.inr (Or.inr ⟨hex2, hsr2, hio, by simp [hdo], ?_⟩)))
          rcases hdr : doRead env k st1 with ⟨st2, ev2, err2⟩
          simp [tickBody, hex2, hsr2, hio, hdo, hdr]

theorem tick_decompose (env : TickEnv) (k : String) (st : WatchState) :
    ∃ extra, (tick env k st).2 = (tickBody env k st).2.1 ++ extra ∧
      (∀ e, e ∈ extra →
        e = WEvent.errorLogged ∨ e = WEvent.slept ∨ e = WEvent.inodeReset) ∧
      (tick env k st).1.handle = (tickBody env k st).1.handle ∧
      (∀ h, (tickBody env k st).1.handle = some h → h.closed = false →
        (tick env k st).1.current_inode = (tickBody env k st).1.current_inode) := by
  rcases hb : tickBody env k st with ⟨st1, evs, errored⟩
  cases errored with
  | false =>
    rcases hh : st1.handle with _ | h0
    · refine ⟨[], ?_, by simp, ?_, ?_⟩
      · simp [tick, hb, hh]
      · simp [tick, hb, hh]
      · intro h hmem hcl
        simp [tick, hb, hh]
    · by_cases hc : h0.closed = true
      · refine ⟨[WEvent.inodeReset], ?_, by simp, ?_, ?_⟩
        · simp [tick, hb, hh, hc]
        · simp [tick, hb, hh, hc]
        · intro h hmem hcl
          cases hmem
          rw [hcl] at hc
          cases hc
      · have hc2 : h0.closed = false := by simpa using hc
        refine ⟨[], ?_, by simp, ?_, ?_⟩
        · simp [tick, hb, hh, hc2]
        · simp [tick, hb, hh, hc2]
        · intro h hmem hcl
          simp [tick, hb, hh, hc2]
  | true =>
    rcases hh : st1.handle with _ | h0
    · refine ⟨[WEvent.errorLogged, WEvent.slept], ?_, by simp, ?_, ?_⟩
      · simp [tick, hb, hh]
      · simp [tick, hb, hh]
      · intro h hmem hcl
        simp [tick, hb, hh]
    · by_cases hc : h0.closed = true
      · refine ⟨[WEvent.errorLogged, WEvent.slept, WEvent.inodeReset], ?_, by simp, ?_, ?_⟩
        · simp [tick, hb, hh, hc]
        · simp [tick, hb, hh, hc]
        · intro h hmem hcl
          cases hmem
          rw [hcl] at hc
          cases hc
      · have hc2 : h0.closed = false := by simpa using hc
        refine ⟨[WEvent.errorLogged, WEvent.slept], ?_, by simp, ?_, ?_⟩
        · simp [tick, hb, hh, hc2]
        · simp [tick, hb, hh, hc2]
        · intro h hmem hcl
          simp [tick, hb, hh, hc2]

theorem tickBody_reads (env : TickEnv) (k : String) (st : WatchState)
    (hinv : SeekInv st) :
    SeekInv (tickBody env k st).1 ∧
    ∀ ino idx line, WEvent.readLine ino idx line ∈ (tickBody env k st).2.1 →
      ∃ h2, (tickBody env k st).1.handle = some h2 ∧ h2.ino = ino ∧
        h2.openLen ≤ idx ∧ idx + 1 = h2.pos := by
  rcases tickBody_cases env k st with ⟨_, hcase⟩ | ⟨_, _, hcase⟩ |
    ⟨_, _, _, hcase⟩ | ⟨_, _, _, _, hcase⟩ | ⟨_, _, _, _, hcase⟩
  · rw [hcase]
    exact ⟨hinv, by intro ino idx line hmem; simp at hmem⟩
  · rw [hcase]
    exact ⟨hinv, by intro ino idx line hmem; simp at hmem⟩
  · rw [hcase]
    exact doRead_reads env k st hinv
  · rw [hcase]
    refine ⟨doOpen_seekInv env st hinv, ?_⟩
    intro ino idx line hmem
    rcases doOpen_events env st (WEvent.readLine ino idx line) hmem with h | h <;>
      cases h
  · rw [hcase]
    have hseek1 : SeekInv (doOpen env st).1 := doOpen_seekInv env st hinv
    obtain ⟨hseek2, hreads⟩ := doRead_reads env k (doOpen env st).1 hseek1
    refine ⟨hseek2, ?_⟩
    intro ino idx line hmem
    rcases List.mem_append.mp hmem with h | h
    · rcases doOpen_events env st (WEvent.readLine ino idx line) h with h2 | h2 <;>
        cases h2
    · exact hreads ino idx line h

theorem tickBody_alerts (env : TickEnv) (k : String) (st : WatchState) :
    ∀ ino idx line, WEvent.readLine ino idx line ∈ (tickBody env k st).2.1 →
      (pyIn k line = true →
        countAlerts (tickBody env k st).2.1 = 1 ∧
        WEvent.alertBroadcast ("Keyword alert: " ++ pyStrip line) ∈
          (tickBody env k st).2.1) ∧
      (pyIn k line = false → countAlerts (tickBody env k st).2.1 = 0) := by
  intro ino idx line hmem
  rcases tickBody_cases env k st with ⟨_, hcase⟩ | ⟨_, _, hcase⟩ |
    ⟨_, _, _, hcase⟩ | ⟨_, _, _, _, hcase⟩ | ⟨_, _, _, _, hcase⟩
  · rw [hcase] at hmem
    simp at hmem
  · rw [hcase] at hmem
    simp at hmem
  · rw [hcase] at hmem ⊢
    exact doRead_alerts env k st ino idx line hmem
  · rw [hcase] at hmem
    simp only at hmem
    rcases doOpen_events env st (WEvent.readLine ino idx line) hmem with h | h <;>
      cases h
  · rw [hcase] at hmem ⊢
    simp only at hmem ⊢
    have hopen0 : countAlerts (doOpen env st).2.1 = 0 := by
      apply countAlerts_eq_zero
      intro e he
      rcases doOpen_events env st e he with h | h <;> rw [h] <;> rfl
    rcases List.mem_append.mp hmem with h | h
    · rcases doOpen_events env st (WEvent.readLine ino idx line) h with h2 | h2 <;>
        cases h2
    · obtain ⟨h1, h2⟩ := doRead_alerts env k (doOpen env st).1 ino idx line h
      constructor
      · intro htrue
        obtain ⟨hcount, hmem2⟩ := h1 htrue
        rw [countAlerts_append, hopen0, hcount]
        exact ⟨rfl, List.mem_append.mpr (Or.inr hmem2)⟩
      · intro hfalse
        rw [countAlerts_append, hopen0, h2 hfalse]

theorem runWatch_length (k : String) : ∀ (envs : List TickEnv) (st : WatchState),
    (runWatch k envs st).2.length = envs.length := by
  intro envs
  induction envs with
  | nil => intro st; rfl
  | cons e es ih =>
    intro st
    rcases ht : tick e k st with ⟨st1, evs⟩
    have hlen := ih st1
    rcases hr : runWatch k es st1 with ⟨stF, rest⟩
    rw [hr] at hlen
    simp [runWatch, ht, hr]
    simpa using hlen

theorem doRead_inodeInv (env : TickEnv) (k : String) (st : WatchState)
    (hinv : InodeInv st) : InodeInv (doRead env k st).1 := by
  rcases doRead_cases env k st with ⟨hst, _⟩ | ⟨h, hsome, hcl, _, hst, _⟩
  · rw [hst]; exact hinv
  · intro h2 hsome2 hcl2
    rw [hst] at hsome2 ⊢
    simp at hsome2
    have hcur := hinv h hsome hcl
    rw [← hsome2]
    simpa using hcur

theorem tickBody_inodeInv (env : TickEnv) (k : String) (st : WatchState)
    (heq : env.statIno = env.openIno) (hinv : InodeInv st) :
    InodeInv (tickBody env k st).1 := by
  rcases tickBody_cases env k st with ⟨_, hcase⟩ | ⟨_, _, hcase⟩ |
    ⟨_, _, _, hcase⟩ | ⟨_, _, _, h4, hcase⟩ | ⟨_, _, _, h5, hcase⟩ <;> rw [hcase]
  · exact hinv
  · exact hinv
  · exact doRead_inodeInv env k st hinv
  · rcases doOpen_cases env st with ⟨_, _, _, hhandle⟩ | ⟨_, hff, _⟩
    · intro h2 hsome2 hcl2
      obtain ⟨h0, _, hval⟩ := hhandle h2 hsome2
      rw [hval] at hcl2
      simp at hcl2
    · rw [hff] at h4
      cases h4
  · rcases doOpen_cases env st with ⟨_, htt, _⟩ | ⟨_, _, hstate, _⟩
    · rw [htt] at h5
      cases h5
    · have hinvOpen : InodeInv (doOpen env st).1 := by
        rw [hstate]
        intro h2 hsome2 hcl2
        simp at hsome2
        rw [← hsome2]
        simp [heq]
      exact doRead_inodeInv env k _ hinvOpen

/-! ## Claim theorems (log tail monitor) -/

/-- Claim C1: for every line the monitor reads, a line containing the
keyword (case-sensitive substring test, however many times it occurs)
triggers exactly one fan-out invocation, whose payload is the fixed
prefix `"Keyword alert: "` followed by the stripped line text; a line
not containing the keyword triggers none. -/
theorem one_alert_per_matching_line (env : TickEnv) (k : String)
    (st : WatchState) :
    ∀ ino idx line, WEvent.readLine ino idx line ∈ (tick env k st).2 →
      (pyIn k line = true →
        countAlerts (tick env k st).2 = 1 ∧
        WEvent.alertBroadcast ("Keyword alert: " ++ pyStrip line) ∈
          (tick env k st).2) ∧
      (pyIn k line = false → countAlerts (tick env k st).2 = 0) := by
  intro ino idx line hmem
  obtain ⟨extra, hevs, hextra, _, _⟩ := tick_decompose env k st
  have hbody : WEvent.readLine ino idx line ∈ (tickBody env k st).2.1 := by
    rw [hevs] at hmem
    rcases List.mem_append.mp hmem with h | h
    · exact h
    · rcases hextra _ h with hx | hx | hx <;> cases hx
  have hextra0 : countAlerts extra = 0 := by
    apply countAlerts_eq_zero
    intro e he
    rcases hextra e he with h | h | h <;> rw [h] <;> rfl
  obtain ⟨h1, h2⟩ := tickBody_alerts env k st ino idx line hbody
  constructor
  · intro htrue
    obtain ⟨hcount, hmem2⟩ := h1 htrue
    rw [hevs, countAlerts_append, hcount, hextra0]
    exact ⟨rfl, List.mem_append.mpr (Or.inl hmem2)⟩
  · intro hfalse
    rw [hevs, countAlerts_append, h2 hfalse, hextra0]

/-- Log line used by the monitor witnesses (as `readline` returns it,
with the trailing newline). -/
def lineBob : String := "user bob LoggedIn at 10:00\n"

/-- Environment for the C1 witness: a steady tick (no rotation) with
one unread line available on inode 1. -/
def readEnv : TickEnv :=
  { pathExists := true, statIno := 1, openIno := 1,
    lenOf := fun _ => 1, lineAt := fun _ _ => lineBob,
    statRaises := false, openRaises := false, readRaises := false,
    fanoutRaises := false }

/-- Watcher state for the C1 witness: handle open on inode 1 at
position 0. -/
def readState : WatchState :=
  { current_inode := some 1,
    handle := some { ino := 1, pos := 0, openLen := 0, closed := false } }

/-- Witness for claim C1: the tick reading `lineBob` broadcasts exactly
one alert carrying the stripped payload. -/
theorem one_alert_per_matching_line_witness :
    countAlerts (tick readEnv "LoggedIn" readState).2 = 1 ∧
    WEvent.alertBroadcast ("Keyword alert: " ++ pyStrip lineBob) ∈
      (tick readEnv "LoggedIn" readState).2 :=
  (one_alert_per_matching_line readEnv "LoggedIn" readState 1 0 lineBob
    (by decide)).1 (by decide)

/-- Claim C2: whenever the monitor (re)opens the watched file — at
first startup or when the stat-observed inode differs from
`current_inode` — it closes any previously open handle, opens a new
handle, records the new inode, and seeks to end-of-file; the tick that
opens reads no line at all, and every line ever read lies at or beyond
the position the reading handle was seeked to when it was opened, so no
line written before the (re)open is ever read or alerted on. -/
theorem monitor_seeks_end_never_reads_preexisting (env : TickEnv)
    (k : String) (st : WatchState) (hinv : SeekInv st) :
    SeekInv (tick env k st).1 ∧
    (env.pathExists = true → env.statRaises = false → env.openRaises = false →
      st.current_inode ≠ some env.statIno →
      (tick env k st).1.current_inode = some env.statIno ∧
      (tick env k st).1.handle =
        some { ino := env.openIno, pos := env.lenOf env.openIno,
               openLen := env.lenOf env.openIno, closed := false } ∧
      WEvent.opened env.openIno (env.lenOf env.openIno) ∈ (tick env k st).2 ∧
      (∀ h0, st.handle = some h0 → WEvent.closedOld ∈ (tick env k st).2) ∧
      (∀ ino idx line, WEvent.readLine ino idx line ∉ (tick env k st).2)) ∧
    (∀ ino idx line, WEvent.readLine ino idx line ∈ (tick env k st).2 →
      ∃ h2, (tick env k st).1.handle = some h2 ∧ h2.ino = ino ∧
        h2.openLen ≤ idx ∧ idx + 1 = h2.pos) := by
  obtain ⟨extra, hevs, hextra, hhandle, hinode⟩ := tick_decompose env k st
  obtain ⟨hseek, hreads⟩ := tickBody_reads env k st hinv
  refine ⟨?_, ?_, ?_⟩
  · intro h hsome
    refine hseek h ?_
    rw [← hhandle]
    exact hsome
  · intro hex hsr hor hio
    rcases tickBody_cases env k st with ⟨h1, _⟩ | ⟨_, h2, _⟩ | ⟨_, _, h3, _⟩ |
      ⟨_, _, _, h4, _⟩ | ⟨_, _, _, h5, hcase⟩
    · simp [hex] at h1
    · simp [hsr] at h2
    · exact absurd h3 hio
    · rcases doOpen_cases env st with ⟨ho, _⟩ | ⟨_, hff, _⟩
      · simp [hor] at ho
      · rw [hff] at h4
        cases h4
    · rcases doOpen_cases env st with ⟨ho, _⟩ | ⟨_, _, hstate, hopened, hclosedOld⟩
      · simp [hor] at ho
      · have hnoread : (doRead env k (doOpen env st).1).1 = (doOpen env st).1 ∧
            ((doRead env k (doOpen env st).1).2.1 = [] ∨
             (doRead env k (doOpen env st).1).2.1 = [WEvent.slept]) := by
          rcases doRead_cases env k (doOpen env st).1 with hleft |
            ⟨h, hsome, _, hp, _⟩
          · exact hleft
          · rw [hstate] at hsome
            simp at hsome
            rw [← hsome] at hp
            simp at hp
        have hb1 : (tickBody env k st).1 =
            { current_inode := some env.statIno,
              handle := some { ino := env.openIno, pos := env.lenOf env.openIno,
                               openLen := env.lenOf env.openIno,
                               closed := false } } := by
          rw [hcase]
          simp only []
          rw [hnoread.1, hstate]
        have hbh : (tickBody env k st).1.handle =
            some { ino := env.openIno, pos := env.lenOf env.openIno,
                   openLen := env.lenOf env.openIno, closed := false } := by
          rw [hb1]
        have hbody : (tickBody env k st).2.1 =
            (doOpen env st).2.1 ++ (doRead env k (doOpen env st).1).2.1 := by
          rw [hcase]
        refine ⟨?_, ?_, ?_, ?_, ?_⟩
        · rw [hinode _ hbh rfl, hb1]
        · rw [hhandle, hbh]
        · rw [hevs, hbody]
          exact List.mem_append.mpr (Or.inl (List.mem_append.mpr (Or.inl hopened)))
        · intro h0 hh0
          rw [hevs, hbody]
          exact List.mem_append.mpr
            (Or.inl (List.mem_append.mpr (Or.inl (hclosedOld h0 hh0))))
        · intro ino idx line hmem
          rw [hevs, hbody] at hmem
          rcases List.mem_append.mp hmem with hm | hm
          · rcases List.mem_append.mp hm with hm2 | hm2
            · rcases doOpen_events env st _ hm2 with hx | hx <;> cases hx
            · rcases hnoread.2 with hz | hz <;> rw [hz] at hm2 <;> simp at hm2
          · rcases hextra _ hm with hx | hx | hx <;> cases hx
  · intro ino idx line hmem
    rw [hevs] at hmem
    rcases List.mem_append.mp hmem with h | h
    · obtain ⟨h2, hh2, hrest⟩ := hreads ino idx line h
      refine ⟨h2, ?_, hrest⟩
      rw [hhandle]
      exact hh2
    · rcases hextra _ h with hx | hx | hx <;> cases hx

/-- Environment for the C2 witness: first startup over a file on inode
1 that already holds two lines; the open seeks past both. -/
def openEnv : TickEnv :=
  { pathExists := true, statIno := 1, openIno := 1,
    lenOf := fun _ => 2, lineAt := fun _ _ => lineBob,
    statRaises := false, openRaises := false, readRaises := false,
    fanoutRaises := false }

/-- Witness for claim C2: the first tick opens inode 1 and seeks to
position 2, past the two pre-existing lines. -/
theorem monitor_seeks_end_witness :
    (tick openEnv "LoggedIn" initialWatchState).1.current_inode = some 1 ∧
    (tick openEnv "LoggedIn" initialWatchState).1.handle =
      some { ino := 1, pos := 2, openLen := 2, closed := false } ∧
    WEvent.opened 1 2 ∈ (tick openEnv "LoggedIn" initialWatchState).2 := by
  have h := (monitor_seeks_end_never_reads_preexisting openEnv "LoggedIn"
    initialWatchState (by intro h hh; simp [initialWatchState] at hh)).2.1
    rfl rfl rfl (by simp [initialWatchState])
  exact ⟨h.1, h.2.1, h.2.2.1⟩

/-- Claim C7: the monitor loop never exits on error: whenever the tick
body raises, the tick logs the error and sleeps one poll interval; the
loop processes every tick of any environment trace; and the `finally`
block guarantees that a tick ending with a closed handle ends with
`current_inode` reset, so the following tick takes the reopen branch. -/
theorem monitor_never_exits (env : TickEnv) (k : String) (st : WatchState)
    (envs : List TickEnv) :
    ((tickBody env k st).2.2 = true →
      WEvent.errorLogged ∈ (tick env k st).2 ∧
      WEvent.slept ∈ (tick env k st).2) ∧
    (∀ h, (tick env k st).1.handle = some h → h.closed = true →
      (tick env k st).1.current_inode = none) ∧
    (runWatch k envs st).2.length = envs.length := by
  refine ⟨?_, ?_, runWatch_length k envs st⟩
  · intro herr
    rcases hb : tickBody env k st with ⟨st1, evs, errored⟩
    rw [hb] at herr
    simp at herr
    subst herr
    rcases hh : st1.handle with _ | h0
    · constructor <;> simp [tick, hb, hh]
    · by_cases hc : h0.closed = true
      · constructor <;> simp [tick, hb, hh, hc]
      · have hc2 : h0.closed = false := by simpa using hc
        constructor <;> simp [tick, hb, hh, hc2]
  · intro h hsome hcl
    rcases hb : tickBody env k st with ⟨st1, evs, errored⟩
    rcases hh : st1.handle with _ | h0
    · exfalso
      cases errored <;> simp [tick, hb, hh] at hsome
    · by_cases hc : h0.closed = true
      · cases errored <;> simp [tick, hb, hh, hc]
      · have hc2 : h0.closed = false := by simpa using hc
        exfalso
        cases errored <;> simp [tick, hb, hh, hc2] at hsome <;>
          rw [← hsome] at hcl <;> rw [hcl] at hc2 <;> cases hc2

/-- Environment for the C7 witness: `os.stat` raises. -/
def statFailEnv : TickEnv :=
  { pathExists := true, statIno := 1, openIno := 1,
    lenOf := fun _ => 0, lineAt := fun _ _ => "",
    statRaises := true, openRaises := false, readRaises := false,
    fanoutRaises := false }

/-- Witness for claim C7: a stat failure is logged and slept through,
and the loop still processes the whole trace. -/
theorem monitor_never_exits_witness :
    (WEvent.errorLogged ∈ (tick statFailEnv "LoggedIn" initialWatchState).2 ∧
      WEvent.slept ∈ (tick statFailEnv "LoggedIn" initialWatchState).2) ∧
    (runWatch "LoggedIn" [statFailEnv] initialWatchState).2.length = 1 :=
  ⟨(monitor_never_exits statFailEnv "LoggedIn" initialWatchState
      [statFailEnv]).1 (by decide),
   (monitor_never_exits statFailEnv "LoggedIn" initialWatchState
      [statFailEnv]).2.2⟩

/-- Environment for the C9 counterexample: the path's file has inode 1
when `os.stat` runs but inode 2 by the time `open` runs — the file is
replaced between the two calls of the same tick. -/
def rotatedEnv : TickEnv :=
  { pathExists := true, statIno := 1, openIno := 2,
    lenOf := fun _ => 0, lineAt := fun _ _ => "",
    statRaises := false, openRaises := false, readRaises := false,
    fanoutRaises := false }

/-- Claim C9 counterexample: the claim states that after every poll
tick an open handle's bound-file inode equals `current_inode`; but the
monitor records the inode observed by the `os.stat` that ran before
`open`, so when the path is rebound between the two calls the tick ends
with the handle bound to inode 2 while `current_inode` records inode 1,
and the invariant check evaluates to false. -/
theorem inode_invariant_fails_on_midtick_rotation :
    (tick rotatedEnv "LoggedIn" initialWatchState).1.handle =
      some { ino := 2, pos := 0, openLen := 0, closed := false } ∧
    (tick rotatedEnv "LoggedIn" initialWatchState).1.current_inode = some 1 ∧
    inodeInvCheck (tick rotatedEnv "LoggedIn" initialWatchState).1 = false := by
  refine ⟨?_, ?_, ?_⟩ <;> rfl

/-- Claim C9 (amended): provided the watched path is not replaced
between the `os.stat` and the `open` of the same tick (so both observe
the same inode), every poll tick preserves the invariant that an open,
unclosed handle's bound-file inode equals `current_inode`. -/
theorem inode_invariant_preserved_without_midtick_rotation (env : TickEnv)
    (k : String) (st : WatchState) (heq : env.statIno = env.openIno)
    (hinv : InodeInv st) : InodeInv (tick env k st).1 := by
  have hbody := tickBody_inodeInv env k st heq hinv
  obtain ⟨extra, _, _, hhandle, hinode⟩ := tick_decompose env k st
  intro h2 hsome2 hcl2
  have hb2 : (tickBody env k st).1.handle = some h2 := by
    rw [← hhandle]
    exact hsome2
  rw [hinode h2 hb2 hcl2]
  exact hbody h2 hb2 hcl2

/-- Environment for the C9 amended-claim witness: a clean open where
stat and open agree on inode 3. -/
def steadyEnv : TickEnv :=
  { pathExists := true, statIno := 3, openIno := 3,
    lenOf := fun _ => 0, lineAt := fun _ _ => "",
    statRaises := false, openRaises := false, readRaises := false,
    fanoutRaises := false }

/-- Witness for the amended claim C9 at the startup state. -/
theorem inode_invariant_preserved_witness :
    inodeInvCheck (tick steadyEnv "LoggedIn" initialWatchState).1 = true :=
  (inodeInvCheck_iff _).mpr
    (inode_invariant_preserved_without_midtick_rotation steadyEnv "LoggedIn"
      initialWatchState rfl
      (by intro h hh hc; simp [initialWatchState] at hh))

end LogCast
